import Mathlib

/-!
# Verification of `cli-flags-parser` (`src/index.ts`)

A shallow embedding of the flag parser in `src/index.ts`.  Tokens are
`String`s, the caller state is an arbitrary type `σ`, callbacks are Lean
functions.  The embedding mirrors the source: the `optionRegex` classifier,
the single-dash group expansion, the rule resolution loop and the dispatch
loop with its conditional look-ahead consumption (`index++`).

On top of the plain result we also thread a ghost trace of `Event`s that
records, in order, every invocation of a caller-supplied function
(the rule-set generator, flag callbacks, the positional callback and the
rest callback) together with its arguments and its result.  The trace is
write-only: no branch of the embedding reads it, so it observes the
invocation sequence without changing behaviour.
-/

/-- `type Dash = "-" | "--"` (src/index.ts line 1). -/
inductive Dash : Type where
  | single
  | double
deriving DecidableEq, Repr

/-- `CallbackResult<State, Error>` (src/index.ts lines 50-52).  The optional
`handleRemainingAsRest?: boolean` field (checked with `=== true` in the
source) is modelled as a `Bool` that is `false` when absent. -/
inductive CallbackResult (σ ε : Type) : Type where
  | ok (state : σ) (handleRemainingAsRest : Bool)
  | error (e : ε)
deriving DecidableEq, Repr

/-- `FlagRule<State, FlagError>` (src/index.ts lines 3-10): a 3-tuple
`[dash, name, callback]` is a switch, a 4-tuple
`[dash, name, valueDescription, callback]` is a value flag. -/
inductive FlagRule (σ ε : Type) : Type where
  | switch (dash : Dash) (name : String) (callback : σ → CallbackResult σ ε)
  | value (dash : Dash) (name : String) (valueDescription : String)
      (callback : String → σ → CallbackResult σ ε)

/-- The `dash` component of a rule (first tuple element). -/
def FlagRule.dash : FlagRule σ ε → Dash
  | .switch d _ _ => d
  | .value d _ _ _ => d

/-- The `name` component of a rule (second tuple element). -/
def FlagRule.name : FlagRule σ ε → String
  | .switch _ n _ => n
  | .value _ n _ _ => n

/-- `FlagErrorWrapper<FlagError>` (src/index.ts lines 12-42).  In the source
the `ValueFlagNotLastInGroup` variant's `dash` field has the literal type
`"-"`, so it carries no information and is left out here. -/
inductive FlagErrorWrapper (ε : Type) : Type where
  | unexpectedFlagValue (dash : Dash) (name : String) (value : String)
  | missingFlagValue (dash : Dash) (name : String) (valueDescription : String)
  | valueFlagNotLastInGroup (name : String) (valueDescription : String)
  | unknownFlag (dash : Dash) (name : String)
  | custom (dash : Dash) (name : String) (valueDescription : Option String)
      (error : ε)
deriving DecidableEq, Repr

/-- `FlagValue` (src/index.ts lines 44-48). -/
inductive FlagValue : Type where
  | viaEquals (value : String)
  | notLastInGroup
  | viaNextArg (value : String)
  | nextArgMissing
deriving DecidableEq, Repr

/-- `Options<State, FlagError, ArgError>` (src/index.ts lines 63-68). -/
structure Options (σ fε aε : Type) : Type where
  initialState : σ
  flagRulesFromState : σ → List (FlagRule σ fε)
  onArg : String → σ → CallbackResult σ aε
  onRest : List String → σ → CallbackResult σ aε

/-- `ParseResult<State, FlagError, ArgError>` (src/index.ts lines 70-73). -/
inductive ParseResult (σ fε aε : Type) : Type where
  | ok (state : σ)
  | flagError (error : FlagErrorWrapper fε)
  | argError (error : aε)
deriving DecidableEq, Repr

/-- One recorded invocation of a caller-supplied function, together with its
arguments and its result.  `rulesCall s` records one call
`options.flagRulesFromState(s)`. -/
inductive Event (σ fε aε : Type) : Type where
  | rulesCall (state : σ)
  | flagCall (dash : Dash) (name : String) (value : Option String) (state : σ)
      (result : CallbackResult σ fε)
  | argCall (token : String) (state : σ) (result : CallbackResult σ aε)
  | restCall (tokens : List String) (state : σ) (result : CallbackResult σ aε)
deriving DecidableEq, Repr

/-- Split a character list at the first `'='`: the part before it and, when
an `'='` occurs, the part after it.  This is how the greedy `([^-=][^=]*)`
group followed by the optional `(?:=([^]*))?` group of `optionRegex` carve
up the text after the dashes. -/
def splitNameValue : List Char → List Char × Option (List Char)
  | [] => ([], none)
  | '=' :: rest => ([], some rest)
  | c :: rest =>
    let (n, v) := splitNameValue rest
    (c :: n, v)

/-- `optionRegex = /^(--?)([^-=][^=]*)(?:=([^]*))?$/` (src/index.ts line 75)
applied to a token: `none` means no match, `some (dash, name, value?)` are
the three capture groups (the source turns group 1 into a `Dash` the same
way on line 152).  `--?` is greedy; when two dashes are present but the
following character is `'-'` or `'='`, backtracking to a single dash cannot
help, because the name's first character class `[^-=]` rejects `'-'`. -/
def matchOption (arg : String) : Option (Dash × String × Option String) :=
  match arg.toList with
  | '-' :: '-' :: c :: rest =>
    if c ≠ '-' ∧ c ≠ '=' then
      let (n, v) := splitNameValue (c :: rest)
      some (Dash.double, String.mk n, v.map String.mk)
    else
      none
  | '-' :: c :: rest =>
    if c ≠ '-' ∧ c ≠ '=' then
      let (n, v) := splitNameValue (c :: rest)
      some (Dash.single, String.mk n, v.map String.mk)
    else
      none
  | _ => none

/-- How the dispatch loop sorts a token (src/index.ts lines 146-151): the
exact token `"--"` first, then the regex, everything else is positional. -/
inductive TokenClass : Type where
  | terminator
  | flagToken (dash : Dash) (name : String) (value : Option String)
  | positional
deriving DecidableEq, Repr

/-- The classification decision of src/index.ts lines 146-151:
`arg === "--"` is checked before the regex. -/
def classify (arg : String) : TokenClass :=
  if arg = "--" then .terminator
  else
    match matchOption arg with
    | some (d, n, v) => .flagToken d n v
    | none => .positional

example : classify "--" = .terminator := by decide
example : classify "-" = .positional := by decide
example : classify "-abc=20" = .flagToken .single "abc" (some "20") := by decide

/-- Expansion of a single-dash token's name into one candidate per
character (src/index.ts lines 163-172): every candidate except the last is
paired with `NotLastInGroup`, the last one receives the token's own
`FlagValue`. -/
def expandGroup (afterEquals : FlagValue) : List Char → List (String × FlagValue)
  | [] => []
  | [c] => [(String.singleton c, afterEquals)]
  | c :: c2 :: rest =>
    (String.singleton c, FlagValue.notLastInGroup) ::
      expandGroup afterEquals (c2 :: rest)

/-- The inner rule scan (src/index.ts lines 178-180): the first rule whose
dash and name both equal the candidate's. -/
def findRule (rules : List (FlagRule σ ε)) (flagDash : Dash) (flagName : String) :
    Option (FlagRule σ ε) :=
  rules.find? fun r => r.dash == flagDash && r.name == flagName

/-- `handleRemainingAsRest` (src/index.ts lines 87-99): call the rest
callback on the given tokens and translate its result.  Note that the rest
callback's own `handleRemainingAsRest` field is ignored and the rule set is
not recomputed afterwards. -/
def handleRemainingAsRest (opts : Options σ fε aε) (rest : List String)
    (state : σ) : ParseResult σ fε aε × List (Event σ fε aε) :=
  let result := opts.onRest rest state
  (match result with
    | .ok s _ => .ok s
    | .error e => .argError e,
   [.restCall rest state result])

/-- `handleFlagCallbackResult` (src/index.ts lines 101-126).  `Sum.inl` is
an early return of the whole parse; `Sum.inr (s, rules)` is the source's
`undefined` ("keep scanning") together with the updated `state` and `rules`
variables.  `restTokens` is what `argv.slice(index + 1)` holds at the call
site. -/
def handleFlagCallbackResult (opts : Options σ fε aε) (restTokens : List String)
    (dash : Dash) (name : String) (valueDescription : Option String)
    (result : CallbackResult σ fε) :
    (ParseResult σ fε aε ⊕ σ × List (FlagRule σ fε)) × List (Event σ fε aε) :=
  match result with
  | .ok s hrar =>
    let rules := opts.flagRulesFromState s
    if hrar then
      let (r, tr) := handleRemainingAsRest opts restTokens s
      (Sum.inl r, Event.rulesCall s :: tr)
    else
      (Sum.inr (s, rules), [Event.rulesCall s])
  | .error e =>
    (Sum.inl (.flagError (.custom dash name valueDescription e)), [])

/-- `handleCallbackResult` (src/index.ts lines 128-144), used for the
positional callback: identical to `handleFlagCallbackResult` except that
an `Error` becomes an `ArgError`. -/
def handleCallbackResult (opts : Options σ fε aε) (restTokens : List String)
    (result : CallbackResult σ aε) :
    (ParseResult σ fε aε ⊕ σ × List (FlagRule σ fε)) × List (Event σ fε aε) :=
  match result with
  | .ok s hrar =>
    let rules := opts.flagRulesFromState s
    if hrar then
      let (r, tr) := handleRemainingAsRest opts restTokens s
      (Sum.inl r, Event.rulesCall s :: tr)
    else
      (Sum.inr (s, rules), [Event.rulesCall s])
  | .error e =>
    (Sum.inl (.argError e), [])

/-- Outcome of the candidate loop over one token's expansion
(src/index.ts lines 175-263): `done` is an early `return` of the whole
parse; `next` resumes the outer token loop with the current `state` and
`rules` variables and with `drops` extra cursor advances committed by
`index++` (src/index.ts line 213). -/
inductive GroupOutcome (σ fε aε : Type) : Type where
  | done (result : ParseResult σ fε aε)
  | next (state : σ) (rules : List (FlagRule σ fε)) (drops : Nat)

/-- The candidate loop `for (const [flagName, flagValue] of items)`
(src/index.ts lines 175-263).  `rest` is `argv.slice(index + 1)` for the
token being expanded; `drops` counts the `index++` advances committed so
far, so `rest.drop drops` is `argv.slice(index + 1)` at any instant. -/
def processItems (opts : Options σ fε aε) (flagDash : Dash)
    (rest : List String) :
    List (String × FlagValue) → σ → List (FlagRule σ fε) → Nat →
    GroupOutcome σ fε aε × List (Event σ fε aε)
  | [], state, rules, drops => (.next state rules drops, [])
  | (flagName, flagValue) :: items, state, rules, drops =>
    match findRule rules flagDash flagName with
    | none =>
      -- src/index.ts lines 253-262: the `dash` field is the literal `"--"`.
      (.done (.flagError (.unknownFlag Dash.double flagName)), [])
    | some (.switch dash name callback) =>
      -- src/index.ts lines 181-207 (`rule.length === 3`).
      match flagValue with
      | .viaEquals v =>
        (.done (.flagError (.unexpectedFlagValue dash name v)), [])
      | _ =>
        let result := callback state
        let ev := Event.flagCall dash name none state result
        match handleFlagCallbackResult opts (rest.drop drops) dash name none
            result with
        | (Sum.inl r, tr) => (.done r, ev :: tr)
        | (Sum.inr (s, rules2), tr) =>
          let (o, tr2) := processItems opts flagDash rest items s rules2 drops
          (o, ev :: (tr ++ tr2))
    | some (.value dash name valueDescription callback) =>
      -- src/index.ts lines 208-246 (4-tuple rule).
      match flagValue with
      | .viaNextArg v =>
        -- `index++` (line 213) precedes the callback, so a rest handoff
        -- from inside the callback already sees the advanced cursor.
        let result := callback v state
        let ev := Event.flagCall dash name (some v) state result
        match handleFlagCallbackResult opts (rest.drop (drops + 1)) dash name
            (some valueDescription) result with
        | (Sum.inl r, tr) => (.done r, ev :: tr)
        | (Sum.inr (s, rules2), tr) =>
          let (o, tr2) :=
            processItems opts flagDash rest items s rules2 (drops + 1)
          (o, ev :: (tr ++ tr2))
      | .viaEquals v =>
        let result := callback v state
        let ev := Event.flagCall dash name (some v) state result
        match handleFlagCallbackResult opts (rest.drop drops) dash name
            (some valueDescription) result with
        | (Sum.inl r, tr) => (.done r, ev :: tr)
        | (Sum.inr (s, rules2), tr) =>
          let (o, tr2) := processItems opts flagDash rest items s rules2 drops
          (o, ev :: (tr ++ tr2))
      | .notLastInGroup =>
        (.done (.flagError (.valueFlagNotLastInGroup name valueDescription)),
         [])
      | .nextArgMissing =>
        (.done (.flagError (.missingFlagValue dash name valueDescription)), [])

/-- The token loop `for (let index = 0; ...)` (src/index.ts lines 84-272),
written over the list of tokens not yet scanned.  `rest.drop drops` realises
the extra cursor advances committed inside a group. -/
def parseLoop (opts : Options σ fε aε) :
    List String → σ → List (FlagRule σ fε) →
    ParseResult σ fε aε × List (Event σ fε aε)
  | [], state, _ => (.ok state, [])
  | arg :: rest, state, rules =>
    match classify arg with
    | .terminator => handleRemainingAsRest opts rest state
    | .flagToken flagDash beforeEquals maybeAfterEquals =>
      -- src/index.ts lines 156-161.
      let afterEquals : FlagValue :=
        match maybeAfterEquals with
        | none =>
          match rest.head? with
          | some next => .viaNextArg next
          | none => .nextArgMissing
        | some v => .viaEquals v
      -- src/index.ts lines 163-173.
      let items : List (String × FlagValue) :=
        match flagDash with
        | .single => expandGroup afterEquals beforeEquals.toList
        | .double => [(beforeEquals, afterEquals)]
      match processItems opts flagDash rest items state rules 0 with
      | (.done r, tr) => (r, tr)
      | (.next state2 rules2 drops, tr) =>
        let (r, tr2) := parseLoop opts (rest.drop drops) state2 rules2
        (r, tr ++ tr2)
    | .positional =>
      -- src/index.ts lines 264-269.
      let result := opts.onArg arg state
      let ev := Event.argCall arg state result
      match handleCallbackResult opts rest result with
      | (Sum.inl r, tr) => (r, ev :: tr)
      | (Sum.inr (state2, rules2), tr) =>
        let (r, tr2) := parseLoop opts rest state2 rules2
        (r, ev :: (tr ++ tr2))
termination_by argv _ _ => argv.length
decreasing_by
  · simp only [List.length_drop, List.length_cons]; omega
  · simp only [List.length_cons]; omega

/-- `parse` with the ghost invocation trace: the initial state and the
initial rule-set computation (src/index.ts lines 81-82) followed by the
token loop. -/
def parseT (argv : List String) (opts : Options σ fε aε) :
    ParseResult σ fε aε × List (Event σ fε aε) :=
  let state := opts.initialState
  let rules := opts.flagRulesFromState state
  let (r, tr) := parseLoop opts argv state rules
  (r, Event.rulesCall state :: tr)

/-- `export default function parse` (src/index.ts lines 77-273). -/
def parse (argv : List String) (opts : Options σ fε aε) :
    ParseResult σ fε aε :=
  (parseT argv opts).1

/-- The replacement state of an `Ok` result of a flag or positional
callback invocation; `none` for the rest callback, the rule-set generator
and `Error` results.  In the source, exactly the `Ok` results of flag and
positional callbacks trigger a recomputation of the rule set
(src/index.ts lines 108-110 and 132-134). -/
def callbackOkState : Event σ fε aε → Option σ
  | .flagCall _ _ _ _ (.ok s _) => some s
  | .argCall _ _ (.ok s _) => some s
  | _ => none

/-- One step of the rule-set-recomputation discipline over a trace:
`pending = some s` means the previous event was an `Ok` callback with
replacement state `s`, so the next event must be exactly `rulesCall s`;
`pending = none` means no recomputation is due, so the next event must not
be a `rulesCall`, and an `Ok` callback event makes its replacement state
due. -/
def alignedAux : Option σ → List (Event σ fε aε) → Prop
  | pending, [] => pending = none
  | pending, e :: tail =>
    match pending, e with
    | some s, .rulesCall s2 => s2 = s ∧ alignedAux none tail
    | some _, _ => False
    | none, .rulesCall _ => False
    | none, _ => alignedAux (callbackOkState e) tail

/-- Modelled from the spec sentence "pure; called once before scanning and
again after every successful callback": in an invocation trace with its
initial `rulesCall` removed, every `Ok` flag or positional callback is
followed immediately by one `rulesCall` on its replacement state, and
`rulesCall` appears nowhere else. -/
def RulesCallsAligned (tr : List (Event σ fε aε)) : Prop :=
  alignedAux none tr

/-- The candidate loop with the rule set recomputed from the current state
at every candidate, following the spec sentence "The active rule set used
to resolve a given token is always the one computed from the state as it
existed immediately before that token was processed" (applied, as §4.5
step 2 requires, down to single candidates of a bundled group).  Proving it
equal to `processItems` run on `opts.flagRulesFromState state` shows the
source's cached `rules` variable always holds exactly that rule set. -/
def processItemsR (opts : Options σ fε aε) (flagDash : Dash)
    (rest : List String) :
    List (String × FlagValue) → σ → Nat →
    GroupOutcome σ fε aε × List (Event σ fε aε)
  | [], state, drops =>
    (.next state (opts.flagRulesFromState state) drops, [])
  | (flagName, flagValue) :: items, state, drops =>
    match findRule (opts.flagRulesFromState state) flagDash flagName with
    | none =>
      (.done (.flagError (.unknownFlag Dash.double flagName)), [])
    | some (.switch dash name callback) =>
      match flagValue with
      | .viaEquals v =>
        (.done (.flagError (.unexpectedFlagValue dash name v)), [])
      | _ =>
        let result := callback state
        let ev := Event.flagCall dash name none state result
        match handleFlagCallbackResult opts (rest.drop drops) dash name none
            result with
        | (Sum.inl r, tr) => (.done r, ev :: tr)
        | (Sum.inr (s, _), tr) =>
          let (o, tr2) := processItemsR opts flagDash rest items s drops
          (o, ev :: (tr ++ tr2))
    | some (.value dash name valueDescription callback) =>
      match flagValue with
      | .viaNextArg v =>
        let result := callback v state
        let ev := Event.flagCall dash name (some v) state result
        match handleFlagCallbackResult opts (rest.drop (drops + 1)) dash name
            (some valueDescription) result with
        | (Sum.inl r, tr) => (.done r, ev :: tr)
        | (Sum.inr (s, _), tr) =>
          let (o, tr2) := processItemsR opts flagDash rest items s (drops + 1)
          (o, ev :: (tr ++ tr2))
      | .viaEquals v =>
        let result := callback v state
        let ev := Event.flagCall dash name (some v) state result
        match handleFlagCallbackResult opts (rest.drop drops) dash name
            (some valueDescription) result with
        | (Sum.inl r, tr) => (.done r, ev :: tr)
        | (Sum.inr (s, _), tr) =>
          let (o, tr2) := processItemsR opts flagDash rest items s drops
          (o, ev :: (tr ++ tr2))
      | .notLastInGroup =>
        (.done (.flagError (.valueFlagNotLastInGroup name valueDescription)),
         [])
      | .nextArgMissing =>
        (.done (.flagError (.missingFlagValue dash name valueDescription)), [])

/-- The token loop with the rule set recomputed from the current state at
every candidate (companion of `processItemsR`). -/
def parseLoopR (opts : Options σ fε aε) :
    List String → σ → ParseResult σ fε aε × List (Event σ fε aε)
  | [], state => (.ok state, [])
  | arg :: rest, state =>
    match classify arg with
    | .terminator => handleRemainingAsRest opts rest state
    | .flagToken flagDash beforeEquals maybeAfterEquals =>
      let afterEquals : FlagValue :=
        match maybeAfterEquals with
        | none =>
          match rest.head? with
          | some next => .viaNextArg next
          | none => .nextArgMissing
        | some v => .viaEquals v
      let items : List (String × FlagValue) :=
        match flagDash with
        | .single => expandGroup afterEquals beforeEquals.toList
        | .double => [(beforeEquals, afterEquals)]
      match processItemsR opts flagDash rest items state 0 with
      | (.done r, tr) => (r, tr)
      | (.next state2 _ drops, tr) =>
        let (r, tr2) := parseLoopR opts (rest.drop drops) state2
        (r, tr ++ tr2)
    | .positional =>
      let result := opts.onArg arg state
      let ev := Event.argCall arg state result
      match handleCallbackResult opts rest result with
      | (Sum.inl r, tr) => (r, ev :: tr)
      | (Sum.inr (state2, _), tr) =>
        let (r, tr2) := parseLoopR opts rest state2
        (r, ev :: (tr ++ tr2))
termination_by argv _ => argv.length
decreasing_by
  · simp only [List.length_drop, List.length_cons]; omega
  · simp only [List.length_cons]; omega

/-- A configuration with no rules at all and a trivial state. -/
def unitOpts : Options Unit Unit Unit where
  initialState := ()
  flagRulesFromState := fun _ => []
  onArg := fun _ _ => .ok () false
  onRest := fun _ _ => .ok () false

/-- A recording configuration whose state is the list of observations:
`-a` is a switch, `-b`, `-c` and `--abc` are value flags, every callback
succeeds. -/
def recordOpts : Options (List String) Unit Unit where
  initialState := []
  flagRulesFromState := fun _ =>
    [.switch .single "a" (fun t => .ok (t ++ ["a"]) false),
     .value .single "b" "B" (fun v t => .ok (t ++ ["b=" ++ v]) false),
     .value .single "c" "C" (fun v t => .ok (t ++ ["c=" ++ v]) false),
     .value .double "abc" "ABC" (fun v t => .ok (t ++ ["abc=" ++ v]) false)]
  onArg := fun a t => .ok (t ++ ["arg:" ++ a]) false
  onRest := fun ts t => .ok (t ++ "rest" :: ts) false

/-- A recording configuration where `-a` and `-b` are switches and `-c` is
a value flag, as in the spec's group-expansion-equivalence scenario. -/
def switchValueOpts : Options (List String) Unit Unit where
  initialState := []
  flagRulesFromState := fun _ =>
    [.switch .single "a" (fun t => .ok (t ++ ["a"]) false),
     .switch .single "b" (fun t => .ok (t ++ ["b"]) false),
     .value .single "c" "C" (fun v t => .ok (t ++ ["c=" ++ v]) false)]
  onArg := fun a t => .ok (t ++ ["arg:" ++ a]) false
  onRest := fun ts t => .ok (t ++ "rest" :: ts) false

/-- A recording configuration whose only rule is the switch `-a`, as in the
spec's terminator-transparency scenario. -/
def switchOnlyOpts : Options (List String) Unit Unit where
  initialState := []
  flagRulesFromState := fun _ =>
    [.switch .single "a" (fun t => .ok (t ++ ["flag:a"]) false)]
  onArg := fun a t => .ok (t ++ ["arg:" ++ a]) false
  onRest := fun ts t => .ok (t ++ "rest" :: ts) false

/-- A recording configuration whose only rule is the value flag
`--output`. -/
def outputOpts : Options (List String) Unit Unit where
  initialState := []
  flagRulesFromState := fun _ =>
    [.value .double "output" "a path" (fun v t => .ok (t ++ ["out:" ++ v]) false)]
  onArg := fun a t => .ok (t ++ ["arg:" ++ a]) false
  onRest := fun ts t => .ok (t ++ "rest" :: ts) false

/-- A recording configuration whose only rule is the switch `--verbose`. -/
def doubleSwitchOpts : Options (List String) Unit Unit where
  initialState := []
  flagRulesFromState := fun _ =>
    [.switch .double "verbose" (fun t => .ok (t ++ ["v"]) false)]
  onArg := fun a t => .ok (t ++ ["arg:" ++ a]) false
  onRest := fun ts t => .ok (t ++ "rest" :: ts) false

theorem singleton_a : String.singleton 'a' = "a" := rfl

theorem singleton_b : String.singleton 'b' = "b" := rfl

theorem singleton_c : String.singleton 'c' = "c" := rfl

theorem singleton_x : String.singleton 'x' = "x" := rfl

/-- Helper: a token classified as positional is handed to `onArg`
verbatim with the current state, as the first invocation of that loop
iteration. -/
theorem parseLoop_positional_head (σ fε aε : Type) (opts : Options σ fε aε)
    (t : String) (h : classify t = TokenClass.positional) (rest : List String)
    (s : σ) (rules : List (FlagRule σ fε)) :
    (parseLoop opts (t :: rest) s rules).2.head? =
      some (.argCall t s (opts.onArg t s)) := by
  rw [parseLoop.eq_2, h]
  cases hr : opts.onArg t s with
  | ok s2 b =>
    cases b
    · cases hp : parseLoop opts rest s2 (opts.flagRulesFromState s2) with
      | mk r tr2 => simp [handleCallbackResult, hr, hp]
    · simp [handleCallbackResult, handleRemainingAsRest, hr]
  | error e => simp [handleCallbackResult, hr]

/-- Helper: the classifier marks a token as the terminator exactly when it
is the two-character token `--`. -/
theorem classify_terminator_iff (t : String) :
    classify t = TokenClass.terminator ↔ t = "--" := by
  constructor
  · intro h
    by_contra hne
    rw [classify, if_neg hne] at h
    rcases hm : matchOption t with _ | ⟨d, n, v⟩ <;> rw [hm] at h <;>
      simp at h
  · intro h
    subst h
    rfl

/-- C1 (amended): when a flag candidate name matches no rule in the active
rule set, the scan aborts at once with `UnknownFlag` carrying the candidate
name, and the candidate's callback is never invoked; the error's `dash`
field however is always `"--"` (src/index.ts line 258), also for candidates
expanded from a single-dash token. -/
theorem unknownFlag_aborts_with_double_dash (σ fε aε : Type)
    (opts : Options σ fε aε) (flagDash : Dash) (flagName : String)
    (fv : FlagValue) (items : List (String × FlagValue)) (state : σ)
    (rules : List (FlagRule σ fε)) (drops : Nat) (rest : List String)
    (h : findRule rules flagDash flagName = none) :
    processItems opts flagDash rest ((flagName, fv) :: items) state rules
        drops =
      (.done (.flagError (.unknownFlag Dash.double flagName)), []) := by
  simp only [processItems.eq_def, h]

/-- C1 witness: a single-dash candidate `x` with an empty rule set. -/
theorem unknownFlag_aborts_with_double_dash_witness :
    processItems unitOpts Dash.single ([] : List String)
        [("x", FlagValue.nextArgMissing)] () [] 0 =
      (.done (.flagError (.unknownFlag Dash.double "x")), []) :=
  unknownFlag_aborts_with_double_dash Unit Unit Unit unitOpts .single "x"
    .nextArgMissing [] () [] 0 [] rfl

/-- C1 counterexample: parsing the single-dash token `-x` with no rules
yields `UnknownFlag` with dash `"--"`, not with dash `"-"` as the claim
states. -/
theorem unknownFlag_single_dash_counterexample :
    parse ["-x"] unitOpts = .flagError (.unknownFlag Dash.double "x") ∧
      parse ["-x"] unitOpts ≠ .flagError (.unknownFlag Dash.single "x") := by
  have h : parse ["-x"] unitOpts = .flagError (.unknownFlag Dash.double "x") := by
    simp [parse, parseT, parseLoop, classify, matchOption, splitNameValue,
          expandGroup, unitOpts, processItems, findRule, List.find?,
          handleCallbackResult, handleFlagCallbackResult,
          handleRemainingAsRest, singleton_x]
  refine ⟨h, ?_⟩
  rw [h]
  intro hc
  simp at hc

/-- C3: a token is the terminator exactly when it is `"--"`; the tokens
`-`, `---`, `--=` and `-=` are positional (and a positional token is
delivered to the positional callback verbatim, so it can never produce an
`UnknownFlag` error); `-h`, `--help`, `-d=x` and `--foo=a=b` are flag
tokens, the last with name `foo` and attached value `a=b`. -/
theorem token_classification_cases :
    (∀ t : String, classify t = TokenClass.terminator ↔ t = "--")
    ∧ classify "-" = .positional
    ∧ classify "---" = .positional
    ∧ classify "--=" = .positional
    ∧ classify "-=" = .positional
    ∧ (∀ (σ fε aε : Type) (opts : Options σ fε aε) (t : String),
        classify t = TokenClass.positional →
        ∀ (rest : List String) (s : σ) (rules : List (FlagRule σ fε)),
          (parseLoop opts (t :: rest) s rules).2.head? =
            some (.argCall t s (opts.onArg t s)))
    ∧ classify "-h" = .flagToken .single "h" none
    ∧ classify "--help" = .flagToken .double "help" none
    ∧ classify "-d=x" = .flagToken .single "d" (some "x")
    ∧ classify "--foo=a=b" = .flagToken .double "foo" (some "a=b") := by
  refine ⟨classify_terminator_iff, by decide, by decide, by decide, by decide,
          ?_, by decide, by decide, by decide, by decide⟩
  intro σ fε aε opts t h rest s rules
  exact parseLoop_positional_head σ fε aε opts t h rest s rules

/-- C5: reaching `--` invokes the rest callback exactly once with
precisely the tokens strictly after it, verbatim, and its translated
result is the final `ParseResult`; concretely, for
`["-a", "b", "--", "-a", "b"]` with `-a` a switch, the rest callback
receives `["-a", "b"]`, the switch fires once and `b` is positional
once. -/
theorem terminator_rest_handoff :
    (∀ (σ fε aε : Type) (opts : Options σ fε aε) (rest : List String) (s : σ)
        (rules : List (FlagRule σ fε)),
        parseLoop opts ("--" :: rest) s rules =
          ((match opts.onRest rest s with
            | .ok s2 _ => .ok s2
            | .error e => .argError e),
           [.restCall rest s (opts.onRest rest s)]))
    ∧ parseT ["-a", "b", "--", "-a", "b"] switchOnlyOpts =
        (.ok ["flag:a", "arg:b", "rest", "-a", "b"],
         [.rulesCall [],
          .flagCall .single "a" none [] (.ok ["flag:a"] false),
          .rulesCall ["flag:a"],
          .argCall "b" ["flag:a"] (.ok ["flag:a", "arg:b"] false),
          .rulesCall ["flag:a", "arg:b"],
          .restCall ["-a", "b"] ["flag:a", "arg:b"]
            (.ok ["flag:a", "arg:b", "rest", "-a", "b"] false)]) := by
  constructor
  · intro σ fε aε opts rest s rules
    rw [parseLoop.eq_2]
    rfl
  · simp [parseT, parseLoop, classify, matchOption, splitNameValue,
          expandGroup, switchOnlyOpts, processItems, findRule, List.find?,
          FlagRule.dash, FlagRule.name, handleCallbackResult,
          handleFlagCallbackResult, handleRemainingAsRest, singleton_a]

/-- C7: a switch matched with an equals-attached value aborts with
`UnexpectedFlagValue` carrying that value; a value flag matched as a
non-last group member aborts with `ValueFlagNotLastInGroup`; a value flag
matched with no next token aborts with `MissingFlagValue`; in all three
cases the matched rule's callback is never invoked (the invocation trace of
the aborting step is empty). -/
theorem flag_arity_errors (σ fε aε : Type) (opts : Options σ fε aε)
    (dashS dashV d2 d3 : Dash) (nameS nameV n2 n3 v desc : String)
    (cbS : σ → CallbackResult σ fε) (cbV : String → σ → CallbackResult σ fε)
    (items : List (String × FlagValue)) (state : σ)
    (rulesS rulesV : List (FlagRule σ fε)) (drops : Nat) (rest : List String)
    (hS : findRule rulesS dashS nameS = some (.switch d2 n2 cbS))
    (hV : findRule rulesV dashV nameV = some (.value d3 n3 desc cbV)) :
    processItems opts dashS rest ((nameS, .viaEquals v) :: items) state rulesS
        drops =
      (.done (.flagError (.unexpectedFlagValue d2 n2 v)), [])
    ∧ processItems opts dashV rest ((nameV, .notLastInGroup) :: items) state
        rulesV drops =
      (.done (.flagError (.valueFlagNotLastInGroup n3 desc)), [])
    ∧ processItems opts dashV rest ((nameV, .nextArgMissing) :: items) state
        rulesV drops =
      (.done (.flagError (.missingFlagValue d3 n3 desc)), []) := by
  refine ⟨?_, ?_, ?_⟩ <;> simp only [processItems.eq_def, hS, hV]

/-- C7 witness: the switch `-a` given `-a=10`, and the value flag `-b`
as a non-last group member and as the last token. -/
theorem flag_arity_errors_witness :
    processItems recordOpts Dash.single ([] : List String)
        [("a", FlagValue.viaEquals "10")] [] (recordOpts.flagRulesFromState [])
        0 =
      (.done (.flagError (.unexpectedFlagValue Dash.single "a" "10")), [])
    ∧ processItems recordOpts Dash.single ([] : List String)
        [("b", FlagValue.notLastInGroup)] [] (recordOpts.flagRulesFromState [])
        0 =
      (.done (.flagError (.valueFlagNotLastInGroup "b" "B")), [])
    ∧ processItems recordOpts Dash.single ([] : List String)
        [("b", FlagValue.nextArgMissing)] [] (recordOpts.flagRulesFromState [])
        0 =
      (.done (.flagError (.missingFlagValue Dash.single "b" "B")), []) :=
  flag_arity_errors (List String) Unit Unit recordOpts .single .single .single .single
    "a" "b" "a" "b" "10" "B" (fun t => .ok (t ++ ["a"]) false)
    (fun v t => .ok (t ++ ["b=" ++ v]) false) [] []
    (recordOpts.flagRulesFromState []) (recordOpts.flagRulesFromState []) 0 []
    rfl rfl

/-- C2: with `-a` and `-b` switch rules and `-c` a value rule in every
reachable rule set (all callbacks succeeding), `["-abc", "v"]` and
`["-a", "-b", "-c", "v"]` produce identical invocation traces (same
callbacks, same arguments, same order) and identical final results. -/
theorem group_expansion_equivalence (σ fε aε : Type) (opts : Options σ fε aε)
    (cbA cbB : σ → σ) (descC : σ → String) (cbC : String → σ → σ)
    (hA : ∀ s, findRule (opts.flagRulesFromState s) Dash.single "a" =
      some (.switch .single "a" (fun t => .ok (cbA t) false)))
    (hB : ∀ s, findRule (opts.flagRulesFromState s) Dash.single "b" =
      some (.switch .single "b" (fun t => .ok (cbB t) false)))
    (hC : ∀ s, findRule (opts.flagRulesFromState s) Dash.single "c" =
      some (.value .single "c" (descC s) (fun v t => .ok (cbC v t) false))) :
    parseT ["-abc", "v"] opts = parseT ["-a", "-b", "-c", "v"] opts := by
  simp [parseT, parseLoop, processItems.eq_def, hA, hB, hC, classify,
        matchOption, splitNameValue, expandGroup, singleton_a, singleton_b,
        singleton_c, handleFlagCallbackResult]

/-- C2 witness: the recording configuration with `-a`, `-b` switches and
`-c` a value flag. -/
theorem group_expansion_equivalence_witness :
    parseT ["-abc", "v"] switchValueOpts =
      parseT ["-a", "-b", "-c", "v"] switchValueOpts :=
  group_expansion_equivalence (List String) Unit Unit switchValueOpts
    (fun t => t ++ ["a"]) (fun t => t ++ ["b"]) (fun _ => "C")
    (fun v t => t ++ ["c=" ++ v]) (fun _ => rfl) (fun _ => rfl) (fun _ => rfl)

/-- C6: with rules `-a` (switch), `-b` (value), `-c` (value) and `--abc`
(value), all callbacks succeeding, `["--abc=10", "-abc=20"]` aborts with
`ValueFlagNotLastInGroup` naming `b`; the trace shows `--abc` (with value
`10`) and `-a` invoked exactly once each before the error and `-b`, `-c`
never invoked — the prior invocations are not rolled back. -/
theorem mid_group_value_error_partial_effects (σ fε aε : Type)
    (opts : Options σ fε aε) (cbA : σ → σ) (descB descC descAbc : σ → String)
    (cbB cbC cbAbc : String → σ → σ)
    (hA : ∀ s, findRule (opts.flagRulesFromState s) Dash.single "a" =
      some (.switch .single "a" (fun t => .ok (cbA t) false)))
    (hB : ∀ s, findRule (opts.flagRulesFromState s) Dash.single "b" =
      some (.value .single "b" (descB s) (fun v t => .ok (cbB v t) false)))
    (hC : ∀ s, findRule (opts.flagRulesFromState s) Dash.single "c" =
      some (.value .single "c" (descC s) (fun v t => .ok (cbC v t) false)))
    (hAbc : ∀ s, findRule (opts.flagRulesFromState s) Dash.double "abc" =
      some (.value .double "abc" (descAbc s)
        (fun v t => .ok (cbAbc v t) false))) :
    parseT ["--abc=10", "-abc=20"] opts =
      (.flagError (.valueFlagNotLastInGroup "b"
          (descB (cbA (cbAbc "10" opts.initialState)))),
       [.rulesCall opts.initialState,
        .flagCall .double "abc" (some "10") opts.initialState
          (.ok (cbAbc "10" opts.initialState) false),
        .rulesCall (cbAbc "10" opts.initialState),
        .flagCall .single "a" none (cbAbc "10" opts.initialState)
          (.ok (cbA (cbAbc "10" opts.initialState)) false),
        .rulesCall (cbA (cbAbc "10" opts.initialState))]) := by
  simp [parseT, parseLoop, processItems.eq_def, hA, hB, hAbc, classify,
        matchOption, splitNameValue, expandGroup, singleton_a, singleton_b,
        singleton_c, handleFlagCallbackResult]

/-- C6 witness: the recording configuration with all four rules. -/
theorem mid_group_value_error_partial_effects_witness :
    parseT ["--abc=10", "-abc=20"] recordOpts =
      (.flagError (.valueFlagNotLastInGroup "b" "B"),
       [.rulesCall [],
        .flagCall .double "abc" (some "10") [] (.ok ["abc=10"] false),
        .rulesCall ["abc=10"],
        .flagCall .single "a" none ["abc=10"] (.ok ["abc=10", "a"] false),
        .rulesCall ["abc=10", "a"]]) :=
  mid_group_value_error_partial_effects (List String) Unit Unit recordOpts
    (fun t => t ++ ["a"]) (fun _ => "B") (fun _ => "C") (fun _ => "ABC")
    (fun v t => t ++ ["b=" ++ v]) (fun v t => t ++ ["c=" ++ v])
    (fun v t => t ++ ["abc=" ++ v]) (fun _ => rfl) (fun _ => rfl)
    (fun _ => rfl) (fun _ => rfl)

/-- C4: for every flag token without an equals-attached suffix that is
followed by another token, the cursor advances by one additional position
if and only if the matched rule is Value-arity.  Stated first at the
candidate level, for any dash and any position inside a bundled group
(`drops` pending cursor advances, arbitrary remaining candidates): a
matched switch continues the candidate loop with `drops` unchanged, a
matched value rule with `drops + 1`.  Then at the scan level for
double-dash tokens and for single-dash tokens (one-character name, the
single-candidate expansions): a matched switch leaves the following token
`v` to be processed as the next token of the scan, a matched value rule
consumes `v` and resumes after it. -/
theorem conditional_nextArg_consumption (σ fε aε : Type)
    (opts : Options σ fε aε) :
    (∀ (fd d2 : Dash) (name n2 v : String) (rest : List String)
       (items : List (String × FlagValue)) (state s2 : σ)
       (rules : List (FlagRule σ fε)) (drops : Nat)
       (cb : σ → CallbackResult σ fε),
       findRule rules fd name = some (.switch d2 n2 cb) →
       cb state = .ok s2 false →
       processItems opts fd rest ((name, .viaNextArg v) :: items) state rules
           drops =
         ((processItems opts fd rest items s2 (opts.flagRulesFromState s2)
             drops).1,
          .flagCall d2 n2 none state (.ok s2 false) ::
            .rulesCall s2 ::
              (processItems opts fd rest items s2 (opts.flagRulesFromState s2)
                drops).2))
    ∧ (∀ (fd d2 : Dash) (name n2 desc v : String) (rest : List String)
         (items : List (String × FlagValue)) (state s2 : σ)
         (rules : List (FlagRule σ fε)) (drops : Nat)
         (cb : String → σ → CallbackResult σ fε),
         findRule rules fd name = some (.value d2 n2 desc cb) →
         cb v state = .ok s2 false →
         processItems opts fd rest ((name, .viaNextArg v) :: items) state
             rules drops =
           ((processItems opts fd rest items s2 (opts.flagRulesFromState s2)
               (drops + 1)).1,
            .flagCall d2 n2 (some v) state (.ok s2 false) ::
              .rulesCall s2 ::
                (processItems opts fd rest items s2
                  (opts.flagRulesFromState s2) (drops + 1)).2))
    ∧ (∀ (arg name n2 v : String) (rest : List String) (state s2 : σ)
         (rules : List (FlagRule σ fε)) (d2 : Dash)
         (cb : σ → CallbackResult σ fε),
         classify arg = TokenClass.flagToken Dash.double name none →
         findRule rules Dash.double name = some (.switch d2 n2 cb) →
         cb state = .ok s2 false →
         parseLoop opts (arg :: v :: rest) state rules =
           ((parseLoop opts (v :: rest) s2 (opts.flagRulesFromState s2)).1,
            .flagCall d2 n2 none state (.ok s2 false) ::
              .rulesCall s2 ::
                (parseLoop opts (v :: rest) s2
                  (opts.flagRulesFromState s2)).2))
    ∧ (∀ (arg name n2 desc v : String) (rest : List String) (state s2 : σ)
         (rules : List (FlagRule σ fε)) (d2 : Dash)
         (cb : String → σ → CallbackResult σ fε),
         classify arg = TokenClass.flagToken Dash.double name none →
         findRule rules Dash.double name = some (.value d2 n2 desc cb) →
         cb v state = .ok s2 false →
         parseLoop opts (arg :: v :: rest) state rules =
           ((parseLoop opts rest s2 (opts.flagRulesFromState s2)).1,
            .flagCall d2 n2 (some v) state (.ok s2 false) ::
              .rulesCall s2 ::
                (parseLoop opts rest s2 (opts.flagRulesFromState s2)).2))
    ∧ (∀ (arg name n2 v : String) (c : Char) (rest : List String)
         (state s2 : σ) (rules : List (FlagRule σ fε)) (d2 : Dash)
         (cb : σ → CallbackResult σ fε),
         classify arg = TokenClass.flagToken Dash.single name none →
         name.toList = [c] →
         findRule rules Dash.single (String.singleton c) =
           some (.switch d2 n2 cb) →
         cb state = .ok s2 false →
         parseLoop opts (arg :: v :: rest) state rules =
           ((parseLoop opts (v :: rest) s2 (opts.flagRulesFromState s2)).1,
            .flagCall d2 n2 none state (.ok s2 false) ::
              .rulesCall s2 ::
                (parseLoop opts (v :: rest) s2
                  (opts.flagRulesFromState s2)).2))
    ∧ (∀ (arg name n2 desc v : String) (c : Char) (rest : List String)
         (state s2 : σ) (rules : List (FlagRule σ fε)) (d2 : Dash)
         (cb : String → σ → CallbackResult σ fε),
         classify arg = TokenClass.flagToken Dash.single name none →
         name.toList = [c] →
         findRule rules Dash.single (String.singleton c) =
           some (.value d2 n2 desc cb) →
         cb v state = .ok s2 false →
         parseLoop opts (arg :: v :: rest) state rules =
           ((parseLoop opts rest s2 (opts.flagRulesFromState s2)).1,
            .flagCall d2 n2 (some v) state (.ok s2 false) ::
              .rulesCall s2 ::
                (parseLoop opts rest s2 (opts.flagRulesFromState s2)).2)) := by
  refine ⟨?_, ?_, ?_, ?_, ?_, ?_⟩
  · intro fd d2 name n2 v rest items state s2 rules drops cb hf hcb
    rw [processItems.eq_2, hf]
    simp only [hcb, handleFlagCallbackResult, Bool.false_eq_true, if_false]
    cases hp : processItems opts fd rest items s2 (opts.flagRulesFromState s2)
        drops with
    | mk o tr2 => simp [hp]
  · intro fd d2 name n2 desc v rest items state s2 rules drops cb hf hcb
    rw [processItems.eq_2, hf]
    simp only [hcb, handleFlagCallbackResult, Bool.false_eq_true, if_false]
    cases hp : processItems opts fd rest items s2 (opts.flagRulesFromState s2)
        (drops + 1) with
    | mk o tr2 => simp [hp]
  · intro arg name n2 v rest state s2 rules d2 cb h hf hcb
    rw [parseLoop.eq_2, h]
    simp only [processItems.eq_def, hf, hcb, List.head?_cons,
               handleFlagCallbackResult]
    cases hp : parseLoop opts (v :: rest) s2 (opts.flagRulesFromState s2) with
    | mk r tr2 => simp [hp]
  · intro arg name n2 desc v rest state s2 rules d2 cb h hf hcb
    rw [parseLoop.eq_2, h]
    simp only [processItems.eq_def, hf, hcb, List.head?_cons,
               handleFlagCallbackResult]
    cases hp : parseLoop opts rest s2 (opts.flagRulesFromState s2) with
    | mk r tr2 => simp [hp]
  · intro arg name n2 v c rest state s2 rules d2 cb h hname hf hcb
    rw [parseLoop.eq_2, h]
    simp only [List.head?_cons, hname, expandGroup]
    simp only [processItems.eq_def, hf, hcb, handleFlagCallbackResult,
               Bool.false_eq_true, if_false]
    cases hp : parseLoop opts (v :: rest) s2 (opts.flagRulesFromState s2) with
    | mk r tr2 => simp [hp]
  · intro arg name n2 desc v c rest state s2 rules d2 cb h hname hf hcb
    rw [parseLoop.eq_2, h]
    simp only [List.head?_cons, hname, expandGroup]
    simp only [processItems.eq_def, hf, hcb, handleFlagCallbackResult,
               Bool.false_eq_true, if_false]
    cases hp : parseLoop opts rest s2 (opts.flagRulesFromState s2) with
    | mk r tr2 => simp [hp]

/-- C4 witness: the switch `--verbose` followed by the token `b` does not
consume `b`: `b` is processed as the next token (it ends up positional). -/
theorem conditional_nextArg_consumption_witness :
    parseLoop doubleSwitchOpts ["--verbose", "b"] []
        (doubleSwitchOpts.flagRulesFromState []) =
      (.ok ["v", "arg:b"],
       [.flagCall .double "verbose" none [] (.ok ["v"] false),
        .rulesCall ["v"],
        .argCall "b" ["v"] (.ok ["v", "arg:b"] false),
        .rulesCall ["v", "arg:b"]]) := by
  rw [(conditional_nextArg_consumption (List String) Unit Unit
        doubleSwitchOpts).2.2.1 "--verbose" "verbose" "verbose" "b" [] []
        ["v"] (doubleSwitchOpts.flagRulesFromState []) .double
        (fun t => .ok (t ++ ["v"]) false) rfl rfl rfl]
  simp [parseLoop, classify, matchOption, splitNameValue, doubleSwitchOpts,
        handleCallbackResult, handleRemainingAsRest]

/-- C9: for every parse, a token consumed as the `ViaNextArg` value of a
value flag is delivered to the value callback verbatim and never itself
classified.  Stated first at the candidate level, for any dash and any
position inside a bundled group (`drops` pending cursor advances): the
value token is passed to the callback as-is, the candidate loop continues
past it, and a rest handoff from inside that callback hands over only the
tokens strictly after the consumed token (`rest.drop (drops + 1)`).  Then
at the scan level for double-dash tokens and for single-dash tokens
(one-character name): for arbitrary `v` — including `"--"` or a
flag-shaped token — scanning resumes at the token after `v`, and a
requested handoff hands over exactly the tokens strictly after `v`. -/
theorem nextArg_value_never_classified (σ fε aε : Type)
    (opts : Options σ fε aε) :
    (∀ (fd d2 : Dash) (name n2 desc v : String) (rest : List String)
       (items : List (String × FlagValue)) (state : σ)
       (rules : List (FlagRule σ fε)) (drops : Nat)
       (cb : String → σ → CallbackResult σ fε),
       findRule rules fd name = some (.value d2 n2 desc cb) →
       processItems opts fd rest ((name, .viaNextArg v) :: items) state rules
           drops =
         match cb v state with
         | .ok s2 false =>
           ((processItems opts fd rest items s2 (opts.flagRulesFromState s2)
               (drops + 1)).1,
            .flagCall d2 n2 (some v) state (.ok s2 false) ::
              .rulesCall s2 ::
                (processItems opts fd rest items s2
                  (opts.flagRulesFromState s2) (drops + 1)).2)
         | .ok s2 true =>
           (.done (handleRemainingAsRest opts (rest.drop (drops + 1)) s2).1,
            .flagCall d2 n2 (some v) state (.ok s2 true) ::
              .rulesCall s2 ::
                (handleRemainingAsRest opts (rest.drop (drops + 1)) s2).2)
         | .error e =>
           (.done (.flagError (.custom d2 n2 (some desc) e)),
            [.flagCall d2 n2 (some v) state (.error e)]))
    ∧ (∀ (arg name n2 desc v : String) (rest : List String) (state : σ)
         (rules : List (FlagRule σ fε)) (d2 : Dash)
         (cb : String → σ → CallbackResult σ fε),
         classify arg = TokenClass.flagToken Dash.double name none →
         findRule rules Dash.double name = some (.value d2 n2 desc cb) →
         parseLoop opts (arg :: v :: rest) state rules =
           match cb v state with
           | .ok s2 false =>
             ((parseLoop opts rest s2 (opts.flagRulesFromState s2)).1,
              .flagCall d2 n2 (some v) state (.ok s2 false) ::
                .rulesCall s2 ::
                  (parseLoop opts rest s2 (opts.flagRulesFromState s2)).2)
           | .ok s2 true =>
             ((handleRemainingAsRest opts rest s2).1,
              .flagCall d2 n2 (some v) state (.ok s2 true) ::
                .rulesCall s2 :: (handleRemainingAsRest opts rest s2).2)
           | .error e =>
             (.flagError (.custom d2 n2 (some desc) e),
              [.flagCall d2 n2 (some v) state (.error e)]))
    ∧ (∀ (arg name n2 desc v : String) (c : Char) (rest : List String)
         (state : σ) (rules : List (FlagRule σ fε)) (d2 : Dash)
         (cb : String → σ → CallbackResult σ fε),
         classify arg = TokenClass.flagToken Dash.single name none →
         name.toList = [c] →
         findRule rules Dash.single (String.singleton c) =
           some (.value d2 n2 desc cb) →
         parseLoop opts (arg :: v :: rest) state rules =
           match cb v state with
           | .ok s2 false =>
             ((parseLoop opts rest s2 (opts.flagRulesFromState s2)).1,
              .flagCall d2 n2 (some v) state (.ok s2 false) ::
                .rulesCall s2 ::
                  (parseLoop opts rest s2 (opts.flagRulesFromState s2)).2)
           | .ok s2 true =>
             ((handleRemainingAsRest opts rest s2).1,
              .flagCall d2 n2 (some v) state (.ok s2 true) ::
                .rulesCall s2 :: (handleRemainingAsRest opts rest s2).2)
           | .error e =>
             (.flagError (.custom d2 n2 (some desc) e),
              [.flagCall d2 n2 (some v) state (.error e)])) := by
  refine ⟨?_, ?_, ?_⟩
  · intro fd d2 name n2 desc v rest items state rules drops cb hf
    rw [processItems.eq_2, hf]
    cases hcb : cb v state with
    | ok s2 b =>
      cases b
      · simp only [hcb, handleFlagCallbackResult, Bool.false_eq_true,
                   if_false]
        cases hp : processItems opts fd rest items s2
            (opts.flagRulesFromState s2) (drops + 1) with
        | mk o tr2 => simp [hp]
      · cases hr : handleRemainingAsRest opts (rest.drop (drops + 1)) s2 with
        | mk r tr => simp [hcb, handleFlagCallbackResult, hr]
    | error e => simp [hcb, handleFlagCallbackResult]
  · intro arg name n2 desc v rest state rules d2 cb h hf
    rw [parseLoop.eq_2, h]
    simp only [processItems.eq_def, hf, List.head?_cons]
    cases hcb : cb v state with
    | ok s2 b =>
      cases b
      · simp only [hcb, handleFlagCallbackResult, Bool.false_eq_true,
                   if_false]
        cases hp : parseLoop opts rest s2 (opts.flagRulesFromState s2) with
        | mk r tr2 => simp [hp]
      · simp only [hcb, handleFlagCallbackResult, if_true]
        cases hr : handleRemainingAsRest opts rest s2 with
        | mk r tr => simp [hr]
    | error e => simp [hcb, handleFlagCallbackResult]
  · intro arg name n2 desc v c rest state rules d2 cb h hname hf
    rw [parseLoop.eq_2, h]
    simp only [List.head?_cons, hname, expandGroup]
    simp only [processItems.eq_def, hf]
    cases hcb : cb v state with
    | ok s2 b =>
      cases b
      · simp only [hcb, handleFlagCallbackResult, Bool.false_eq_true,
                   if_false]
        cases hp : parseLoop opts rest s2 (opts.flagRulesFromState s2) with
        | mk r tr2 => simp [hp]
      · simp only [hcb, handleFlagCallbackResult, if_true]
        cases hr : handleRemainingAsRest opts rest s2 with
        | mk r tr => simp [hr]
    | error e => simp [hcb, handleFlagCallbackResult]

/-- C9 witness: `--output` (a value flag) followed by the token `--`
consumes `--` as its value verbatim; `--` is not treated as the terminator
and the scan resumes at the token after it. -/
theorem nextArg_value_never_classified_witness :
    parseLoop outputOpts ["--output", "--", "x"] []
        (outputOpts.flagRulesFromState []) =
      (.ok ["out:--", "arg:x"],
       [.flagCall .double "output" (some "--") [] (.ok ["out:--"] false),
        .rulesCall ["out:--"],
        .argCall "x" ["out:--"] (.ok ["out:--", "arg:x"] false),
        .rulesCall ["out:--", "arg:x"]]) := by
  rw [(nextArg_value_never_classified (List String) Unit Unit outputOpts).2.1
        "--output" "output" "output" "a path" "--" ["x"] []
        (outputOpts.flagRulesFromState []) .double
        (fun v t => .ok (t ++ ["out:" ++ v]) false) rfl rfl]
  simp [parseLoop, classify, matchOption, splitNameValue, outputOpts,
        handleCallbackResult, handleRemainingAsRest]


/-- C10: the parser is a pure function of the token list and the
configuration: two runs on identical inputs yield an identical
`ParseResult` and an identical invocation trace (same callbacks, same
arguments, same order). -/
theorem parse_deterministic (σ fε aε : Type) (argv argv2 : List String)
    (opts opts2 : Options σ fε aε) (h1 : argv = argv2) (h2 : opts = opts2) :
    parseT argv opts = parseT argv2 opts2 ∧
      parse argv opts = parse argv2 opts2 := by
  subst h1
  subst h2
  exact ⟨rfl, rfl⟩

/-- C10 witness: two identical concrete runs. -/
theorem parse_deterministic_witness :
    parseT ["-a", "b"] switchOnlyOpts = parseT ["-a", "b"] switchOnlyOpts ∧
      parse ["-a", "b"] switchOnlyOpts = parse ["-a", "b"] switchOnlyOpts :=
  parse_deterministic (List String) Unit Unit ["-a", "b"] ["-a", "b"]
    switchOnlyOpts switchOnlyOpts rfl rfl

theorem alignedAux_append (tr2 : List (Event σ fε aε))
    (h2 : alignedAux none tr2) :
    ∀ (tr : List (Event σ fε aε)) (p : Option σ),
      alignedAux p tr → alignedAux p (tr ++ tr2) := by
  intro tr
  induction tr with
  | nil =>
    intro p h
    simp [alignedAux] at h
    subst h
    simpa using h2
  | cons e tail ih =>
    intro p h
    cases p <;> cases e <;> simp [alignedAux] at h ⊢ <;>
      first
        | exact ih _ h
        | exact ⟨h.1, ih _ h.2⟩

theorem processItems_aligned (opts : Options σ fε aε) (flagDash : Dash)
    (rest : List String) :
    ∀ (items : List (String × FlagValue)) (state : σ)
      (rules : List (FlagRule σ fε)) (drops : Nat),
      alignedAux none (processItems opts flagDash rest items state rules drops).2 := by
  intro items
  induction items with
  | nil => intro state rules drops; simp [processItems, alignedAux]
  | cons item items ih =>
    obtain ⟨flagName, flagValue⟩ := item
    intro state rules drops
    rw [processItems.eq_2]
    cases hf : findRule rules flagDash flagName with
    | none => simp [alignedAux]
    | some rule =>
      cases rule with
      | switch d n cb =>
        cases flagValue
        case viaEquals => simp [alignedAux]
        all_goals
          cases hcb : cb state with
          | ok s b =>
            cases b
            · simp only [hcb, handleFlagCallbackResult, Bool.false_eq_true,
                         if_false]
              simp [alignedAux, callbackOkState]
              exact ih _ _ _
            · simp [hcb, handleFlagCallbackResult, handleRemainingAsRest,
                    alignedAux, callbackOkState]
          | error e =>
            simp [hcb, handleFlagCallbackResult, alignedAux, callbackOkState]
      | value d n desc cb =>
        cases flagValue
        case notLastInGroup => simp [alignedAux]
        case nextArgMissing => simp [alignedAux]
        all_goals
          rename_i v
          cases hcb : cb v state with
          | ok s b =>
            cases b
            · simp only [hcb, handleFlagCallbackResult, Bool.false_eq_true,
                         if_false]
              simp [alignedAux, callbackOkState]
              exact ih _ _ _
            · simp [hcb, handleFlagCallbackResult, handleRemainingAsRest,
                    alignedAux, callbackOkState]
          | error e =>
            simp [hcb, handleFlagCallbackResult, alignedAux, callbackOkState]


theorem flagBranch_aligned (opts : Options σ fε aε) (fd : Dash)
    (rest : List String) (items : List (String × FlagValue)) (state : σ)
    (rules : List (FlagRule σ fε))
    (hrec : ∀ (s2 : σ) (r2 : List (FlagRule σ fε)) (drops : Nat),
      alignedAux none (parseLoop opts (rest.drop drops) s2 r2).2) :
    alignedAux none
      ((match processItems opts fd rest items state rules 0 with
        | (GroupOutcome.done r, tr) => (r, tr)
        | (GroupOutcome.next state2 rules2 drops, tr) =>
          match parseLoop opts (List.drop drops rest) state2 rules2 with
          | (r, tr2) => (r, tr ++ tr2)) :
        ParseResult σ fε aε × List (Event σ fε aε)).2 := by
  have ha := processItems_aligned opts fd rest items state rules 0
  cases hpi : processItems opts fd rest items state rules 0 with
  | mk o tr =>
    rw [hpi] at ha
    cases o with
    | done r => simpa using ha
    | next s2 r2 drops =>
      have h2 := hrec s2 r2 drops
      cases hp : parseLoop opts (List.drop drops rest) s2 r2 with
      | mk r tr2 =>
        rw [hp] at h2
        simpa [hp] using alignedAux_append tr2 h2 tr none ha

theorem parseLoop_aligned (opts : Options σ fε aε) :
    ∀ (n : Nat) (argv : List String) (state : σ) (rules : List (FlagRule σ fε)),
      argv.length ≤ n →
      alignedAux none (parseLoop opts argv state rules).2 := by
  intro n
  induction n with
  | zero =>
    intro argv state rules hlen
    have hnil : argv = [] := List.eq_nil_of_length_eq_zero (Nat.le_zero.mp hlen)
    subst hnil
    simp [parseLoop, alignedAux]
  | succ n ih =>
    intro argv state rules hlen
    cases argv with
    | nil => simp [parseLoop, alignedAux]
    | cons arg rest =>
      have hrest : rest.length ≤ n := by
        simp only [List.length_cons] at hlen
        omega
      rw [parseLoop.eq_2]
      cases hc : classify arg with
      | terminator =>
        simp [handleRemainingAsRest, alignedAux, callbackOkState]
      | flagToken fd be mae =>
        exact flagBranch_aligned opts fd rest _ state rules
          (fun s2 r2 drops =>
            ih (rest.drop drops) s2 r2
              (by simp only [List.length_drop]; omega))
      | positional =>
        cases hres : opts.onArg arg state with
        | ok s b =>
          cases b
          · cases hp : parseLoop opts rest s (opts.flagRulesFromState s) with
            | mk r tr2 =>
              have h2 := ih rest s (opts.flagRulesFromState s) hrest
              rw [hp] at h2
              simpa [handleCallbackResult, hres, alignedAux, callbackOkState, hp]
                using h2
          · simp [handleCallbackResult, hres, handleRemainingAsRest,
                  alignedAux, callbackOkState]
        | error e =>
          simp [handleCallbackResult, hres, alignedAux, callbackOkState]

theorem processItemsR_next_rules (opts : Options σ fε aε) (flagDash : Dash)
    (rest : List String) :
    ∀ (items : List (String × FlagValue)) (state : σ) (drops : Nat)
      (s2 : σ) (r2 : List (FlagRule σ fε)) (drops2 : Nat)
      (tr : List (Event σ fε aε)),
      processItemsR opts flagDash rest items state drops =
        (.next s2 r2 drops2, tr) →
      r2 = opts.flagRulesFromState s2 := by
  intro items
  induction items with
  | nil =>
    intro state drops s2 r2 drops2 tr h
    simp [processItemsR] at h
    obtain ⟨⟨h1, h2, h3⟩, h4⟩ := h
    rw [← h2, h1]
  | cons item items ih =>
    obtain ⟨flagName, flagValue⟩ := item
    intro state drops s2 r2 drops2 tr h
    rw [processItemsR.eq_2] at h
    cases hf : findRule (opts.flagRulesFromState state) flagDash flagName with
    | none =>
      rw [hf] at h
      simp at h
    | some rule =>
      rw [hf] at h
      cases rule with
      | switch d n cb =>
        cases flagValue
        case viaEquals => simp at h
        all_goals
          cases hcb : cb state with
          | ok s b =>
            cases b
            · try rw [hcb] at h
              simp only [hcb, handleFlagCallbackResult, Bool.false_eq_true,
                         if_false] at h
              cases hpi : processItemsR opts flagDash rest items s drops with
              | mk o tr2 =>
                rw [hpi] at h
                cases o with
                | done r => simp at h
                | next s3 r3 drops3 =>
                  simp at h
                  obtain ⟨⟨e1, e2, e3⟩, e4⟩ := h
                  subst e1; subst e2
                  exact ih s drops s3 r3 drops3 tr2 hpi
            · simp [hcb, handleFlagCallbackResult, handleRemainingAsRest] at h
          | error e => simp [hcb, handleFlagCallbackResult] at h
      | value d n desc cb =>
        cases flagValue
        case notLastInGroup => simp at h
        case nextArgMissing => simp at h
        all_goals
          rename_i v
          cases hcb : cb v state with
          | ok s b =>
            cases b
            · try rw [hcb] at h
              simp only [hcb, handleFlagCallbackResult, Bool.false_eq_true,
                         if_false] at h
              first
                | (cases hpi : processItemsR opts flagDash rest items s
                      (drops + 1) with
                   | mk o tr2 =>
                     rw [hpi] at h
                     cases o with
                     | done r => simp at h
                     | next s3 r3 drops3 =>
                       simp at h
                       obtain ⟨⟨e1, e2, e3⟩, e4⟩ := h
                       subst e1; subst e2
                       exact ih s (drops + 1) s3 r3 drops3 tr2 hpi)
                | (cases hpi : processItemsR opts flagDash rest items s
                      drops with
                   | mk o tr2 =>
                     rw [hpi] at h
                     cases o with
                     | done r => simp at h
                     | next s3 r3 drops3 =>
                       simp at h
                       obtain ⟨⟨e1, e2, e3⟩, e4⟩ := h
                       subst e1; subst e2
                       exact ih s drops s3 r3 drops3 tr2 hpi)
            · simp [hcb, handleFlagCallbackResult, handleRemainingAsRest] at h
          | error e => simp [hcb, handleFlagCallbackResult] at h

theorem processItems_recompute (opts : Options σ fε aε) (flagDash : Dash)
    (rest : List String) :
    ∀ (items : List (String × FlagValue)) (state : σ) (drops : Nat),
      processItems opts flagDash rest items state
          (opts.flagRulesFromState state) drops =
        processItemsR opts flagDash rest items state drops := by
  intro items
  induction items with
  | nil => intro state drops; simp [processItems, processItemsR]
  | cons item items ih =>
    obtain ⟨flagName, flagValue⟩ := item
    intro state drops
    rw [processItems.eq_2, processItemsR.eq_2]
    cases hf : findRule (opts.flagRulesFromState state) flagDash flagName with
    | none => rfl
    | some rule =>
      cases rule with
      | switch d n cb =>
        cases flagValue
        case viaEquals => rfl
        all_goals
          cases hcb : cb state with
          | ok s b =>
            cases b
            · simp only [hcb, handleFlagCallbackResult, Bool.false_eq_true,
                         if_false]
              rw [ih]
            · simp [hcb, handleFlagCallbackResult]
          | error e => simp [hcb, handleFlagCallbackResult]
      | value d n desc cb =>
        cases flagValue
        case notLastInGroup => rfl
        case nextArgMissing => rfl
        all_goals
          rename_i v
          cases hcb : cb v state with
          | ok s b =>
            cases b
            · simp only [hcb, handleFlagCallbackResult, Bool.false_eq_true,
                         if_false]
              rw [ih]
            · simp [hcb, handleFlagCallbackResult]
          | error e => simp [hcb, handleFlagCallbackResult]

theorem flagBranch_recompute (opts : Options σ fε aε) (fd : Dash)
    (rest : List String) (items : List (String × FlagValue)) (state : σ)
    (hrec : ∀ (s2 : σ) (drops : Nat),
      parseLoop opts (rest.drop drops) s2 (opts.flagRulesFromState s2) =
        parseLoopR opts (rest.drop drops) s2) :
    (match processItems opts fd rest items state
        (opts.flagRulesFromState state) 0 with
     | (GroupOutcome.done r, tr) => (r, tr)
     | (GroupOutcome.next state2 rules2 drops, tr) =>
       match parseLoop opts (List.drop drops rest) state2 rules2 with
       | (r, tr2) => (r, tr ++ tr2)) =
    (match processItemsR opts fd rest items state 0 with
     | (GroupOutcome.done r, tr) => (r, tr)
     | (GroupOutcome.next state2 _ drops, tr) =>
       match parseLoopR opts (List.drop drops rest) state2 with
       | (r, tr2) => (r, tr ++ tr2)) := by
  rw [processItems_recompute]
  cases hpi : processItemsR opts fd rest items state 0 with
  | mk o tr =>
    cases o with
    | done r => rfl
    | next s2 r2 drops =>
      have hr2 : r2 = opts.flagRulesFromState s2 :=
        processItemsR_next_rules opts fd rest items state 0 s2 r2 drops tr hpi
      subst hr2
      show (match parseLoop opts (List.drop drops rest) s2
              (opts.flagRulesFromState s2) with
            | (r, tr2) => (r, tr ++ tr2)) =
          (match parseLoopR opts (List.drop drops rest) s2 with
           | (r, tr2) => (r, tr ++ tr2))
      rw [hrec s2 drops]

theorem parseLoop_recompute (opts : Options σ fε aε) :
    ∀ (n : Nat) (argv : List String) (state : σ),
      argv.length ≤ n →
      parseLoop opts argv state (opts.flagRulesFromState state) =
        parseLoopR opts argv state := by
  intro n
  induction n with
  | zero =>
    intro argv state hlen
    have hnil : argv = [] := List.eq_nil_of_length_eq_zero (Nat.le_zero.mp hlen)
    subst hnil
    simp [parseLoop, parseLoopR]
  | succ n ih =>
    intro argv state hlen
    cases argv with
    | nil => simp [parseLoop, parseLoopR]
    | cons arg rest =>
      have hrest : rest.length ≤ n := by
        simp only [List.length_cons] at hlen
        omega
      rw [parseLoop.eq_2, parseLoopR.eq_2]
      cases hc : classify arg with
      | terminator => rfl
      | flagToken fd be mae =>
        exact flagBranch_recompute opts fd rest _ state
          (fun s2 drops =>
            ih (rest.drop drops) s2 (by simp only [List.length_drop]; omega))
      | positional =>
        cases hres : opts.onArg arg state with
        | ok s b =>
          cases b
          · simp only [hres, handleCallbackResult, Bool.false_eq_true, if_false]
            rw [ih rest s hrest]
          · simp [hres, handleCallbackResult]
        | error e => simp [hres, handleCallbackResult]

/-- C8: the rule-set generator is invoked exactly once before any token is
processed (on the initial state) and exactly once after every `Ok` callback
result (on the replacement state), and nowhere else; and the rule set used
to resolve every flag candidate — also inside a bundled group — is the one
computed from the state immediately before that candidate, shown by
equality with the variant that recomputes the rule set at each
candidate. -/
theorem rule_generator_discipline (σ fε aε : Type) (opts : Options σ fε aε)
    (argv : List String) :
    (parseT argv opts).2.head? = some (.rulesCall opts.initialState)
    ∧ RulesCallsAligned (parseT argv opts).2.tail
    ∧ (∀ s : σ, parseLoop opts argv s (opts.flagRulesFromState s) =
        parseLoopR opts argv s) := by
  refine ⟨?_, ?_, ?_⟩
  · simp only [parseT]
    cases hp : parseLoop opts argv opts.initialState
        (opts.flagRulesFromState opts.initialState) with
    | mk r tr => simp
  · simp only [parseT]
    cases hp : parseLoop opts argv opts.initialState
        (opts.flagRulesFromState opts.initialState) with
    | mk r tr =>
      have ha := parseLoop_aligned opts argv.length argv opts.initialState
        (opts.flagRulesFromState opts.initialState) le_rfl
      rw [hp] at ha
      simpa using ha
  · intro s
    exact parseLoop_recompute opts argv.length argv s le_rfl
